import Mathlib

/-!
Shallow embedding of the valuation-reconciliation core of `src/myapp.py`
(a Flask portfolio tracker).  Python strings are modelled as `List Char`,
Python floats as exact rationals `ℚ` (the decimal arithmetic the program
performs stays well inside the range where IEEE doubles behave like exact
decimals for the 2-fractional-digit values involved), `None` as
`Option.none` / a dedicated `PyVal.none` value.  Network scraping is
modelled by passing the price oracles as function parameters.

All definitions are structurally recursive so that concrete runs reduce
inside the kernel (`decide` / `rfl`).
-/

namespace FundsApp

/-- Numeric value of an ASCII digit character (`c.toNat - 48`), as used when
reading digit strings back into numbers. -/
def charVal (c : Char) : ℕ := c.toNat - 48

/-- ASCII digit character for a digit `0 ≤ d ≤ 9` (values `≥ 10` never occur;
the placeholder result keeps the function total). -/
def digitChar : ℕ → Char
  | 0 => '0'
  | 1 => '1'
  | 2 => '2'
  | 3 => '3'
  | 4 => '4'
  | 5 => '5'
  | 6 => '6'
  | 7 => '7'
  | 8 => '8'
  | 9 => '9'
  | _ => '*'

/-- Little-endian base-10 digits of `n`, with explicit fuel so the recursion
is structural (fuel `n` always suffices). -/
def toDigitsLE : ℕ → ℕ → List ℕ
  | 0, _ => []
  | fuel + 1, n => if n = 0 then [] else n % 10 :: toDigitsLE fuel (n / 10)

/-- Little-endian base-10 digits of `n` (empty exactly for `n = 0`). -/
def digitsLE (n : ℕ) : List ℕ := toDigitsLE n n

/-- Value of a little-endian digit list. -/
def natFromDigitsLE : List ℕ → ℕ
  | [] => 0
  | d :: ds => d + 10 * natFromDigitsLE ds

/-- Numeric value of a big-endian ASCII digit string (how `float(...)` reads
the digit runs it has isolated). -/
def charsToNat (s : List Char) : ℕ := natFromDigitsLE ((s.map charVal).reverse)

/-- Whitespace characters removed by Python `str.strip()` (the forms that can
realistically occur in this program's data). -/
def isPySpace (c : Char) : Bool := c = ' ' || c = '\t' || c = '\n' || c = '\r'

/-- Python `str.strip()`: drop whitespace from both ends. -/
def pyStrip (l : List Char) : List Char :=
  ((l.dropWhile isPySpace).reverse.dropWhile isPySpace).reverse

/-- Python `s.replace("VND", "")`: remove every (non-overlapping, scanned
left to right) occurrence of the substring `VND`. -/
def stripVND : List Char → List Char
  | [] => []
  | [c] => [c]
  | [c, d] => [c, d]
  | c :: d :: e :: rest =>
    if c = 'V' ∧ d = 'N' ∧ e = 'D' then stripVND rest
    else c :: stripVND (d :: e :: rest)

/-- Python `s.replace(",", ".")` character map. -/
def commaToDot (c : Char) : Char := if c = ',' then '.' else c

/-- The separator swap performed by `format_vn` via the
`replace(",","X").replace(".",",").replace("X",".")` trick: exchange `,`
and `.`, leave everything else alone. -/
def swapSep (c : Char) : Char := if c = ',' then '.' else if c = '.' then ',' else c

/-- Index of the last occurrence of `c` in a list, if any
(the core of Python `str.rfind`). -/
def rfindAux (c : Char) : List Char → Option ℕ
  | [] => Option.none
  | x :: xs =>
    match rfindAux c xs with
    | some i => some (i + 1)
    | Option.none => if x = c then some 0 else Option.none

/-- Python `s.rfind(c)`: index of the last occurrence, `-1` when absent. -/
def rfind (c : Char) (s : List Char) : ℤ :=
  match rfindAux c s with
  | some i => (i : ℤ)
  | Option.none => -1

/-- Python `s.split(",")`: split at every comma, keeping empty pieces. -/
def splitComma : List Char → List (List Char)
  | [] => [[]]
  | c :: rest =>
    let ps := splitComma rest
    if c = ',' then [] :: ps
    else
      match ps with
      | [] => [[c]]
      | p :: ps' => (c :: p) :: ps'

/-- Python `float(text)` on an unsigned literal: a run of digits, optionally
followed by `.` and a run of digits, at least one digit overall.  (The
exotic float syntaxes — exponents, underscores, `inf`/`nan` — never occur in
this program's data and are not modelled.) -/
def pyFloatUnsigned (s : List Char) : Option ℚ :=
  let ds := s.takeWhile Char.isDigit
  let rest := s.dropWhile Char.isDigit
  match rest with
  | [] => if ds = [] then Option.none else some ((charsToNat ds : ℚ))
  | c :: fr =>
    if c = '.' ∧ fr.all Char.isDigit ∧ (ds ≠ [] ∨ fr ≠ []) then
      some ((charsToNat ds : ℚ) + (charsToNat fr : ℚ) / (10 : ℚ) ^ fr.length)
    else Option.none

/-- Python `float(text)` with an optional leading sign, `Option.none` on the
`ValueError` path. -/
def pyFloat (s : List Char) : Option ℚ :=
  match s with
  | [] => Option.none
  | c :: t =>
    if c = '-' then (pyFloatUnsigned t).map (fun q => -q)
    else if c = '+' then pyFloatUnsigned t
    else pyFloatUnsigned (c :: t)

/-- The string normalisation performed by `parse_number` before the final
`float(...)` call: strip `VND`, whitespace and spaces, then resolve the
`.`/`,` separator ambiguity exactly as the source does. -/
def normalizeParse (s0 : List Char) : List Char :=
  let s := (pyStrip (stripVND s0)).filter (fun c => c ≠ ' ')
  if '.' ∈ s ∧ ',' ∈ s then
    if rfind ',' s < rfind '.' s then s.filter (fun c => c ≠ ',')
    else (s.filter (fun c => c ≠ '.')).map commaToDot
  else if ',' ∈ s then
    if ((splitComma s).getLastD []).length = 3 then s.filter (fun c => c ≠ ',')
    else s.map commaToDot
  else s

/-- String branch of `parse_number`: normalise, then `float(...)` with the
`try/except` collapsing failure to `0`. -/
def parseStr (s0 : List Char) : ℚ := (pyFloat (normalizeParse s0)).getD 0

/-- A Python value as it can sit in a dataframe cell of this program:
a number, a string, or a missing value (`None` / NaN). -/
inductive PyVal
  | num (q : ℚ)
  | str (s : List Char)
  | none
deriving DecidableEq

/-- `parse_number(val)` from the source: missing and empty inputs give `0`,
numbers pass through, strings go through normalisation plus `float`. -/
def parse_number : PyVal → ℚ
  | PyVal.none => 0
  | PyVal.num q => q
  | PyVal.str s => if s = [] then 0 else parseStr s

/-- `float(value)` applied to a dataframe cell, `Option.none` on the
`ValueError`/`TypeError` path (`float(str)` strips surrounding whitespace). -/
def tryFloat : PyVal → Option ℚ
  | PyVal.none => Option.none
  | PyVal.num q => some q
  | PyVal.str s => pyFloat (pyStrip s)

/-- Thousands grouping of `f"{f:,.2f}"`, working on the little-endian digit
characters: a separator after every third digit from the right. -/
def group3 : List Char → List Char
  | [] => []
  | [a] => [a]
  | [a, b] => [a, b]
  | [a, b, c] => [a, b, c]
  | a :: b :: c :: d :: rest => a :: b :: c :: ',' :: group3 (d :: rest)

/-- Little-endian integer-part digit characters, `"0"` for zero (Python
always prints at least one integer digit). -/
def intChars (ip : ℕ) : List Char :=
  if ip = 0 then ['0'] else (digitsLE ip).map digitChar

/-- `f"{f:,.2f}"` for the non-negative value `c / 100` (an exact number of
cents): grouped integer part, `.`, exactly two fraction digits. -/
def pyFormatCents (c : ℕ) : List Char :=
  (group3 (intChars (c / 100))).reverse
    ++ '.' :: [digitChar (c % 100 / 10), digitChar (c % 100 % 10)]

/-- Floor of a rational, computed directly (kernel-reducible). -/
def ratFloor (x : ℚ) : ℤ := x.num.fdiv (x.den : ℤ)

/-- Round a rational to the nearest integer, ties to even — the rounding
applied by CPython's float formatting and `round`. -/
def halfEven (x : ℚ) : ℤ :=
  let n := ratFloor x
  let r := x - (n : ℚ)
  if r < 1 / 2 then n
  else if (1 : ℚ) / 2 < r then n + 1
  else if n % 2 = 0 then n else n + 1

/-- Python `round(x, 2)`. -/
def pyRound2 (x : ℚ) : ℚ := (halfEven (100 * x) : ℚ) / 100

/-- The numeric core of `format_vn` on a convertible value: render with two
fraction digits and `,` thousands grouping, then swap `,` and `.`. -/
def format_q (q : ℚ) : List Char :=
  let c := halfEven (100 * q)
  (if q < 0 then '-' :: pyFormatCents c.natAbs else pyFormatCents c.natAbs).map swapSep

/-- `format_vn(value)` from the source: VN-style rendering of any value that
converts to a float, and the untouched input on the `except` path. -/
def format_vn (v : PyVal) : PyVal :=
  match tryFloat v with
  | some q => PyVal.str (format_q q)
  | Option.none => v

/-- Numeric tail of `fetch_stock_price` once the scraped span text `txt` is
in hand: drop commas, `float`, multiply by `1000`, `round(·, 2)`; scraping or
conversion failure yields `Option.none`. -/
def fetch_stock_price_from_text (txt : List Char) : Option ℚ :=
  (pyFloat (txt.filter (fun c => c ≠ ','))).map (fun p => pyRound2 (p * 1000))

/-- Numeric tail of `fetch_fund_price` once the scraped span text `txt` is in
hand: strip `VND`, then `parse_number` (which never fails) — no scaling. -/
def fetch_fund_price_from_text (txt : List Char) : ℚ :=
  parse_number (PyVal.str (stripVND txt))

/-- One dataframe row of `funds.csv` plus the two columns the TOTAL row adds.
The text columns `items`/`type` are strings; the numeric columns can hold a
string, a raw number, or a missing value. -/
structure Row where
  items : List Char
  type : List Char
  quantity : PyVal
  buy_price : PyVal
  current_price : PyVal
  profit_loss : PyVal
  total_buy : PyVal
  total_current : PyVal
deriving DecidableEq

/-- `str(row["items"]).strip().upper()` — the code used for price lookup. -/
def codeOf (r : Row) : List Char := (pyStrip r.items).map Char.toUpper

/-- `str(row["type"]).strip().lower()` — the asset type used for dispatch. -/
def typOf (r : Row) : List Char := (pyStrip r.type).map Char.toLower

/-- Price-source dispatch of `recalc_prices_and_profit`: `fund` and `stock`
are the only recognised types, anything else fetches no price.  The two
oracles stand for the network fetchers. -/
def priceFor (fund stock : List Char → Option ℚ) (r : Row) : Option ℚ :=
  if typOf r = "fund".toList then fund (codeOf r)
  else if typOf r = "stock".toList then stock (codeOf r)
  else Option.none

/-- Body of the per-row loop of `recalc_prices_and_profit`: the updated row
together with its `buy_price*quantity` and `current_price*quantity`
contributions to the running totals (both `0` when no price was obtained). -/
def processRow (fund stock : List Char → Option ℚ) (r : Row) : Row × ℚ × ℚ :=
  let qty := parse_number r.quantity
  let buy := parse_number r.buy_price
  match priceFor fund stock r with
  | some price =>
    ({ r with
        quantity := format_vn (PyVal.num qty)
        buy_price := format_vn (PyVal.num buy)
        current_price := format_vn (PyVal.num price)
        profit_loss := format_vn (PyVal.num (price * qty - buy * qty)) },
      buy * qty, price * qty)
  | Option.none =>
    ({ r with
        quantity := format_vn (PyVal.num qty)
        buy_price := format_vn (PyVal.num buy)
        current_price := PyVal.str []
        profit_loss := PyVal.str "0,00".toList },
      0, 0)

/-- The whole per-row loop: processed rows in order plus the two totals
accumulators. -/
def recalcLoop (fund stock : List Char → Option ℚ) : List Row → List Row × ℚ × ℚ
  | [] => ([], 0, 0)
  | r :: rest =>
    let p := processRow fund stock r
    let acc := recalcLoop fund stock rest
    (p.1 :: acc.1, p.2.1 + acc.2.1, p.2.2 + acc.2.2)

/-- The TOTAL summary row appended after the loop. -/
def totalRow (totalBuy totalCurrent : ℚ) : Row where
  items := "TOTAL".toList
  type := []
  quantity := PyVal.str []
  buy_price := PyVal.str []
  current_price := PyVal.str []
  profit_loss := format_vn (PyVal.num (totalCurrent - totalBuy))
  total_buy := format_vn (PyVal.num totalBuy)
  total_current := format_vn (PyVal.num totalCurrent)

/-- `recalc_prices_and_profit(df)`: drop any old TOTAL row, reprice every
holding in order, append the fresh TOTAL row. -/
def recalc_prices_and_profit (fund stock : List Char → Option ℚ)
    (df : List Row) : List Row :=
  let out := recalcLoop fund stock (df.filter (fun r => r.items ≠ "TOTAL".toList))
  out.1 ++ [totalRow out.2.1 out.2.2]

/-- The `(total_buy, total_current)` accumulator pair a reconciliation pass
computes for an input dataframe. -/
def recalcTotals (fund stock : List Char → Option ℚ) (df : List Row) : ℚ × ℚ :=
  (recalcLoop fund stock (df.filter (fun r => r.items ≠ "TOTAL".toList))).2

/-! Scheduler (`daily_updater`).  Local wall-clock instants are modelled as
seconds since an epoch whose day 0 is a Thursday (Python `weekday()` has
Monday = 0, and 1970-01-01 was a Thursday). -/

/-- Calendar day of an instant. -/
def dayIndex (t : ℕ) : ℕ := t / 86400

/-- Second within the day. -/
def secOfDay (t : ℕ) : ℕ := t % 86400

/-- `now.hour`. -/
def hourOf (t : ℕ) : ℕ := secOfDay t / 3600

/-- `now.weekday()` (Monday = 0). -/
def weekdayOf (t : ℕ) : ℕ := (dayIndex t + 3) % 7

/-- `datetime.combine((now + 1 day).date(), time(15, 0))` — the next trigger
instant computed after a pass. -/
def nextRun (t : ℕ) : ℕ := dayIndex (t + 86400) * 86400 + 15 * 3600

/-- `max((next_run - datetime.now()).total_seconds(), 0)`: the clamped sleep,
where `afterT` is the clock reading after the pass (it may be past the
computed instant). -/
def sleepSeconds (t afterT : ℕ) : ℤ := max ((nextRun t : ℤ) - (afterT : ℤ)) 0

/-- One iteration of the `daily_updater` loop, as the decision it takes:
whether a reconciliation pass runs, and how long the thread then sleeps
(`t` = clock at the top of the loop, `afterT` = clock after the pass). -/
def daily_updater_step (t afterT : ℕ) : Bool × ℤ :=
  if weekdayOf t < 5 ∧ hourOf t = 15 then (true, sleepSeconds t afterT)
  else (false, 60)

/-! ### Digit and rounding lemmas -/

theorem ratFloor_eq_floor (x : ℚ) : ratFloor x = ⌊x⌋ := by
  rw [ratFloor, Rat.floor_def, Int.fdiv_eq_ediv _ (by positivity)]

theorem halfEven_intCast (k : ℤ) : halfEven ((k : ℚ)) = k := by
  unfold halfEven
  rw [ratFloor_eq_floor, Int.floor_intCast]
  simp

theorem halfEven_natCast (n : ℕ) : halfEven ((n : ℚ)) = (n : ℤ) := by
  have : ((n : ℚ)) = (((n : ℤ) : ℚ)) := by push_cast; ring
  rw [this, halfEven_intCast]

theorem halfEven_eq_low (x : ℚ) (k : ℤ) (h1 : (k : ℚ) ≤ x) (h2 : x < (k : ℚ) + 1 / 2) :
    halfEven x = k := by
  have hf : ⌊x⌋ = k := Int.floor_eq_iff.mpr ⟨h1, by linarith⟩
  unfold halfEven
  rw [ratFloor_eq_floor, hf]
  rw [if_pos (by linarith)]

theorem halfEven_eq_high (x : ℚ) (k : ℤ) (h1 : (k : ℚ) + 1 / 2 < x) (h2 : x < (k : ℚ) + 1) :
    halfEven x = k + 1 := by
  have hf : ⌊x⌋ = k := Int.floor_eq_iff.mpr ⟨by linarith, by linarith⟩
  unfold halfEven
  rw [ratFloor_eq_floor, hf]
  rw [if_neg (by linarith), if_pos (by linarith)]

theorem digitChar_lt_ten (d : ℕ) (h : d < 10) :
    charVal (digitChar d) = d ∧ (digitChar d).isDigit = true := by
  interval_cases d <;> exact ⟨rfl, rfl⟩

theorem digitChar_isDigit (d : ℕ) (h : d < 10) : (digitChar d).isDigit = true :=
  (digitChar_lt_ten d h).2

theorem charVal_digitChar (d : ℕ) (h : d < 10) : charVal (digitChar d) = d :=
  (digitChar_lt_ten d h).1

theorem isDigit_ne (c x : Char) (h : c.isDigit = true) (hx : x.isDigit = false) : c ≠ x := by
  intro hc
  subst hc
  rw [h] at hx
  cases hx

theorem isDigit_not_space (c : Char) (h : c.isDigit = true) : isPySpace c = false := by
  have h1 : c ≠ ' ' := isDigit_ne c ' ' h (by decide)
  have h2 : c ≠ '\t' := isDigit_ne c '\t' h (by decide)
  have h3 : c ≠ '\n' := isDigit_ne c '\n' h (by decide)
  have h4 : c ≠ '\r' := isDigit_ne c '\r' h (by decide)
  simp [isPySpace, h1, h2, h3, h4]

theorem toDigitsLE_invert : ∀ (fuel n : ℕ), n ≤ fuel →
    natFromDigitsLE (toDigitsLE fuel n) = n := by
  intro fuel
  induction fuel with
  | zero => intro n h; interval_cases n; rfl
  | succ f ih =>
    intro n h
    by_cases h0 : n = 0
    · subst h0; simp [toDigitsLE, natFromDigitsLE]
    · have hdiv : n / 10 ≤ f := by
        have := Nat.div_le_self n 10
        have h10 : n / 10 < n := Nat.div_lt_self (Nat.pos_of_ne_zero h0) (by omega)
        omega
      simp only [toDigitsLE, if_neg h0, natFromDigitsLE, ih (n / 10) hdiv]
      omega

theorem toDigitsLE_mem_lt : ∀ (fuel n d : ℕ), d ∈ toDigitsLE fuel n → d < 10 := by
  intro fuel
  induction fuel with
  | zero => intro n d hd; simp [toDigitsLE] at hd
  | succ f ih =>
    intro n d hd
    by_cases h0 : n = 0
    · subst h0; simp [toDigitsLE] at hd
    · simp only [toDigitsLE, if_neg h0, List.mem_cons] at hd
      rcases hd with h | h
      · omega
      · exact ih _ _ h

theorem toDigitsLE_len_le : ∀ (k fuel n : ℕ), n ≤ fuel → n < 10 ^ k →
    (toDigitsLE fuel n).length ≤ k := by
  intro k
  induction k with
  | zero =>
    intro fuel n hf hk
    have : n = 0 := by omega
    subst this
    cases fuel <;> simp [toDigitsLE]
  | succ k ih =>
    intro fuel n hf hk
    cases fuel with
    | zero => simp [toDigitsLE]
    | succ f =>
      by_cases h0 : n = 0
      · subst h0; simp [toDigitsLE]
      · simp only [toDigitsLE, if_neg h0, List.length_cons]
        have h1 : n / 10 ≤ f := by
          have := Nat.div_lt_self (Nat.pos_of_ne_zero h0) (show 1 < 10 by omega)
          omega
        have h2 : n / 10 < 10 ^ k := by
          rw [Nat.div_lt_iff_lt_mul (by omega)]
          calc n < 10 ^ (k + 1) := hk
          _ = 10 ^ k * 10 := by ring
        have := ih f (n / 10) h1 h2
        omega

theorem toDigitsLE_len_ge : ∀ (k fuel n : ℕ), n ≤ fuel → 10 ^ k ≤ n →
    k + 1 ≤ (toDigitsLE fuel n).length := by
  intro k
  induction k with
  | zero =>
    intro fuel n hf hk
    have h0 : n ≠ 0 := by omega
    cases fuel with
    | zero => omega
    | succ f => simp [toDigitsLE, if_neg h0]
  | succ k ih =>
    intro fuel n hf hk
    have h0 : n ≠ 0 := by
      have : 0 < 10 ^ (k + 1) := Nat.pos_pow_of_pos _ (by omega)
      omega
    cases fuel with
    | zero => omega
    | succ f =>
      simp only [toDigitsLE, if_neg h0, List.length_cons]
      have h1 : n / 10 ≤ f := by
        have := Nat.div_lt_self (Nat.pos_of_ne_zero h0) (show 1 < 10 by omega)
        omega
      have h2 : 10 ^ k ≤ n / 10 := by
        rw [Nat.le_div_iff_mul_le (by omega)]
        calc 10 ^ k * 10 = 10 ^ (k + 1) := by ring
        _ ≤ n := hk
      have := ih f (n / 10) h1 h2
      omega

theorem toDigitsLE_ne_nil (fuel n : ℕ) (hf : n ≤ fuel) (h0 : n ≠ 0) :
    toDigitsLE fuel n ≠ [] := by
  cases fuel with
  | zero => omega
  | succ f => simp [toDigitsLE, if_neg h0]

/-! ### String-manipulation lemmas -/

theorem swapSep_digit (c : Char) (h : c.isDigit = true) : swapSep c = c := by
  have h1 : c ≠ ',' := isDigit_ne c ',' h (by decide)
  have h2 : c ≠ '.' := isDigit_ne c '.' h (by decide)
  simp [swapSep, h1, h2]

theorem commaToDot_digit (c : Char) (h : c.isDigit = true) : commaToDot c = c := by
  have h1 : c ≠ ',' := isDigit_ne c ',' h (by decide)
  simp [commaToDot, h1]

theorem swapSep_ne_comma_iff (c : Char) : (swapSep c ≠ '.') ↔ (c ≠ ',') := by
  by_cases h1 : c = ','
  · subst h1; simp [swapSep]
  · by_cases h2 : c = '.'
    · subst h2; simp [swapSep]
    · simp [swapSep, h1, h2]

theorem pyStrip_id (l : List Char) (h : ∀ c ∈ l, isPySpace c = false) : pyStrip l = l := by
  have hd : ∀ (m : List Char), (∀ c ∈ m, isPySpace c = false) → m.dropWhile isPySpace = m := by
    intro m hm
    cases m with
    | nil => rfl
    | cons a t => simp [List.dropWhile_cons, hm a (by simp)]
  rw [pyStrip, hd l h, hd l.reverse (fun c hc => h c (List.mem_reverse.mp hc)), List.reverse_reverse]

theorem stripVND_id : ∀ (l : List Char), (∀ c ∈ l, c ≠ 'V') → stripVND l = l := by
  intro l
  induction l with
  | nil => intro _; rfl
  | cons a t ih =>
    intro h
    have ha : a ≠ 'V' := h a (by simp)
    have ht : ∀ c ∈ t, c ≠ 'V' := fun c hc => h c (by simp [hc])
    match t with
    | [] => rfl
    | [d] => rfl
    | d :: e :: rest =>
      have h3 : stripVND (d :: e :: rest) = d :: e :: rest := ih ht
      show (if a = 'V' ∧ d = 'N' ∧ e = 'D' then stripVND rest
            else a :: stripVND (d :: e :: rest)) = a :: d :: e :: rest
      rw [if_neg (fun h' => ha h'.1), h3]

theorem filter_space_id (l : List Char) (h : ∀ c ∈ l, c ≠ ' ') :
    l.filter (fun c => c ≠ ' ') = l :=
  List.filter_eq_self.mpr (fun c hc => by simp [h c hc])

theorem takeWhile_digits_append (u v : List Char) (x : Char)
    (hu : ∀ c ∈ u, c.isDigit = true) (hx : x.isDigit = false) :
    (u ++ x :: v).takeWhile Char.isDigit = u := by
  induction u with
  | nil => simp [List.takeWhile_cons, hx]
  | cons a t ih =>
    have ha : Char.isDigit a = true := hu a (by simp)
    simp [List.takeWhile_cons, ha, ih (fun c hc => hu c (by simp [hc]))]

theorem dropWhile_digits_append (u v : List Char) (x : Char)
    (hu : ∀ c ∈ u, c.isDigit = true) (hx : x.isDigit = false) :
    (u ++ x :: v).dropWhile Char.isDigit = x :: v := by
  induction u with
  | nil => simp [List.dropWhile_cons, hx]
  | cons a t ih =>
    have ha : Char.isDigit a = true := hu a (by simp)
    simp [List.dropWhile_cons, ha, ih (fun c hc => hu c (by simp [hc]))]

theorem group3_short (l : List Char) (h : l.length ≤ 3) : group3 l = l := by
  match l with
  | [] => rfl
  | [a] => rfl
  | [a, b] => rfl
  | [a, b, c] => rfl
  | a :: b :: c :: d :: rest => simp at h

theorem group3_mem : ∀ (l : List Char) (c : Char), c ∈ group3 l → c ∈ l ∨ c = ','
  | [], c, h => by simp [group3] at h
  | [a], c, h => Or.inl h
  | [a, b], c, h => Or.inl h
  | [a, b, x], c, h => Or.inl h
  | a :: b :: x :: d :: rest, c, h => by
    simp only [group3, List.mem_cons] at h
    rcases h with h | h | h | h | h
    · exact Or.inl (by simp [h])
    · exact Or.inl (by simp [h])
    · exact Or.inl (by simp [h])
    · exact Or.inr h
    · rcases group3_mem (d :: rest) c h with h' | h'
      · simp only [List.mem_cons] at h'
        rcases h' with h' | h'
        · exact Or.inl (by simp [h'])
        · exact Or.inl (by simp [h'])
      · exact Or.inr h'

theorem mem_group3 : ∀ (l : List Char) (c : Char), c ∈ l → c ∈ group3 l
  | [], c, h => by simp at h
  | [a], c, h => h
  | [a, b], c, h => h
  | [a, b, x], c, h => h
  | a :: b :: x :: d :: rest, c, h => by
    simp only [List.mem_cons] at h
    simp only [group3, List.mem_cons]
    rcases h with h | h | h | h
    · exact Or.inl h
    · exact Or.inr (Or.inl h)
    · exact Or.inr (Or.inr (Or.inl h))
    · exact Or.inr (Or.inr (Or.inr (Or.inr (mem_group3 (d :: rest) c (by simp [h])))))

theorem comma_mem_group3 : ∀ (l : List Char), 4 ≤ l.length → ',' ∈ group3 l
  | a :: b :: x :: d :: rest, _ => by simp [group3]
  | [], h => by simp at h
  | [a], h => by simp at h
  | [a, b], h => by simp at h
  | [a, b, x], h => by simp at h

theorem filter_ne_comma_eq_self (l : List Char) (h : ',' ∉ l) :
    l.filter (fun c => c ≠ ',') = l := by
  refine List.filter_eq_self.mpr (fun c hc => ?_)
  simp only [decide_eq_true_eq]
  intro h'
  subst h'
  exact h hc

theorem group3_filter_comma : ∀ (l : List Char), ',' ∉ l →
    (group3 l).filter (fun c => c ≠ ',') = l
  | [], _ => rfl
  | [a], h => by rw [group3_short _ (by simp)]; exact filter_ne_comma_eq_self _ h
  | [a, b], h => by rw [group3_short _ (by simp)]; exact filter_ne_comma_eq_self _ h
  | [a, b, c], h => by rw [group3_short _ (by simp)]; exact filter_ne_comma_eq_self _ h
  | a :: b :: c :: d :: rest, h => by
    simp only [List.mem_cons, not_or] at h
    have ih := group3_filter_comma (d :: rest) (by
      simp only [List.mem_cons, not_or]
      exact ⟨h.2.2.2.1, h.2.2.2.2⟩)
    show (a :: b :: c :: ',' :: group3 (d :: rest)).filter (fun x => x ≠ ',') = _
    rw [List.filter_cons_of_pos (by simp [Ne.symm h.1]),
        List.filter_cons_of_pos (by simp [Ne.symm h.2.1]),
        List.filter_cons_of_pos (by simp [Ne.symm h.2.2.1]),
        List.filter_cons_of_neg (by simp), ih]

theorem rfindAux_eq_none (c : Char) : ∀ (l : List Char), c ∉ l → rfindAux c l = Option.none := by
  intro l
  induction l with
  | nil => intro _; rfl
  | cons a t ih =>
    intro h
    simp only [List.mem_cons, not_or] at h
    have hne : ¬(a = c) := fun hc => h.1 hc.symm
    simp [rfindAux, ih h.2, hne]

theorem rfindAux_append_notmem (c : Char) (u v : List Char) (hv : c ∉ v) :
    rfindAux c (u ++ v) = rfindAux c u := by
  induction u with
  | nil => simp [rfindAux_eq_none c v hv, rfindAux]
  | cons a t ih => simp [rfindAux, ih]

theorem rfindAux_append_self (c : Char) (u v : List Char) (hv : c ∉ v) :
    rfindAux c (u ++ c :: v) = some u.length := by
  induction u with
  | nil => simp [rfindAux, rfindAux_eq_none c v hv]
  | cons a t ih => simp [rfindAux, ih]

theorem rfindAux_lt_length (c : Char) : ∀ (l : List Char) (i : ℕ),
    rfindAux c l = some i → i < l.length := by
  intro l
  induction l with
  | nil => intro i h; simp [rfindAux] at h
  | cons a t ih =>
    intro i h
    simp only [rfindAux] at h
    match hm : rfindAux c t with
    | some j =>
      rw [hm] at h
      have := ih j hm
      simp only [Option.some.injEq] at h
      simp [← h]
      omega
    | Option.none =>
      rw [hm] at h
      by_cases hac : a = c
      · rw [if_pos hac] at h
        simp only [Option.some.injEq] at h
        simp [← h]
      · rw [if_neg hac] at h
        cases h

theorem splitComma_no_comma : ∀ (l : List Char), ',' ∉ l → splitComma l = [l] := by
  intro l
  induction l with
  | nil => intro _; rfl
  | cons a t ih =>
    intro h
    simp only [List.mem_cons, not_or] at h
    simp [splitComma, ih h.2, Ne.symm h.1]

theorem splitComma_append (u v : List Char) (hu : ',' ∉ u) :
    splitComma (u ++ ',' :: v) = u :: splitComma v := by
  induction u with
  | nil => simp [splitComma]
  | cons a t ih =>
    simp only [List.mem_cons, not_or] at hu
    have h2 := ih hu.2
    show splitComma (a :: (t ++ ',' :: v)) = (a :: t) :: splitComma v
    simp only [splitComma, h2]
    rw [if_neg (fun hc => hu.1 hc.symm)]

theorem splitComma_ne_nil : ∀ (l : List Char), splitComma l ≠ [] := by
  intro l
  induction l with
  | nil => simp [splitComma]
  | cons a t ih =>
    simp only [splitComma]
    by_cases h : a = ','
    · simp [h]
    · simp only [if_neg h]
      match hm : splitComma t with
      | [] => exact absurd hm ih
      | p :: ps => simp

/-! ### Reading digit strings back -/

theorem charsToNat_map_digitChar (ds : List ℕ) (h : ∀ d ∈ ds, d < 10) :
    charsToNat ((ds.map digitChar).reverse) = natFromDigitsLE ds := by
  unfold charsToNat
  rw [List.map_reverse, List.reverse_reverse, List.map_map]
  congr 1
  calc ds.map (charVal ∘ digitChar) = ds.map id := by
        apply List.map_congr_left
        intro d hd
        exact charVal_digitChar d (h d hd)
  _ = ds := List.map_id ds

theorem charsToNat_intChars (ip : ℕ) : charsToNat ((intChars ip).reverse) = ip := by
  by_cases h0 : ip = 0
  · subst h0; rfl
  · unfold intChars digitsLE
    rw [if_neg h0, charsToNat_map_digitChar _ (fun d hd => toDigitsLE_mem_lt ip ip d hd)]
    exact toDigitsLE_invert ip ip le_rfl

theorem charsToNat_two (a b : ℕ) (ha : a < 10) (hb : b < 10) :
    charsToNat [digitChar a, digitChar b] = 10 * a + b := by
  unfold charsToNat
  simp [natFromDigitsLE, charVal_digitChar a ha, charVal_digitChar b hb]
  ring

theorem intChars_digits (ip : ℕ) : ∀ c ∈ intChars ip, c.isDigit = true := by
  intro c hc
  unfold intChars at hc
  by_cases h0 : ip = 0
  · rw [if_pos h0] at hc
    simp at hc
    subst hc
    decide
  · rw [if_neg h0] at hc
    rcases List.mem_map.mp hc with ⟨d, hd, hdc⟩
    subst hdc
    exact digitChar_isDigit d (toDigitsLE_mem_lt ip ip d hd)

theorem intChars_ne_nil (ip : ℕ) : intChars ip ≠ [] := by
  unfold intChars
  by_cases h0 : ip = 0
  · simp [h0]
  · rw [if_neg h0]
    intro hc
    exact toDigitsLE_ne_nil ip ip le_rfl h0 (List.map_eq_nil_iff.mp hc)

theorem intChars_len_le (ip : ℕ) (h : ip < 1000) : (intChars ip).length ≤ 3 := by
  unfold intChars
  by_cases h0 : ip = 0
  · simp [h0]
  · rw [if_neg h0, List.length_map]
    exact toDigitsLE_len_le 3 ip ip le_rfl (by norm_num; omega)

theorem intChars_len_ge (ip : ℕ) (h : 1000 ≤ ip) : 4 ≤ (intChars ip).length := by
  unfold intChars
  have h0 : ip ≠ 0 := by omega
  rw [if_neg h0, List.length_map]
  exact toDigitsLE_len_ge 3 ip ip le_rfl (by norm_num; omega)

theorem map_swapSep_digits (l : List Char) (h : ∀ c ∈ l, c.isDigit = true) :
    l.map swapSep = l := by
  calc l.map swapSep = l.map id := by
        apply List.map_congr_left
        intro c hc
        exact swapSep_digit c (h c hc)
  _ = l := List.map_id l

theorem map_commaToDot_digits (l : List Char) (h : ∀ c ∈ l, c.isDigit = true) :
    l.map commaToDot = l := by
  calc l.map commaToDot = l.map id := by
        apply List.map_congr_left
        intro c hc
        exact commaToDot_digit c (h c hc)
  _ = l := List.map_id l

theorem pyFloat_digits (u v : List Char) (hu : ∀ c ∈ u, c.isDigit = true)
    (hv : ∀ c ∈ v, c.isDigit = true) (hne : u ≠ []) :
    pyFloat (u ++ '.' :: v) =
      some ((charsToNat u : ℚ) + (charsToNat v : ℚ) / (10 : ℚ) ^ v.length) := by
  match u, hne with
  | a :: t, _ =>
    have ha : a.isDigit = true := hu a (by simp)
    have hm : a ≠ '-' := isDigit_ne a '-' ha (by decide)
    have hp : a ≠ '+' := isDigit_ne a '+' ha (by decide)
    show (if a = '-' then (pyFloatUnsigned (t ++ '.' :: v)).map (fun q => -q)
          else if a = '+' then pyFloatUnsigned (t ++ '.' :: v)
          else pyFloatUnsigned (a :: (t ++ '.' :: v))) = _
    rw [if_neg hm, if_neg hp]
    have hds : ((a :: t) ++ '.' :: v).takeWhile Char.isDigit = a :: t :=
      takeWhile_digits_append _ _ _ hu (by decide)
    have hrest : ((a :: t) ++ '.' :: v).dropWhile Char.isDigit = '.' :: v :=
      dropWhile_digits_append _ _ _ hu (by decide)
    show pyFloatUnsigned ((a :: t) ++ '.' :: v) = _
    unfold pyFloatUnsigned
    rw [hds, hrest]
    show (if '.' = '.' ∧ v.all Char.isDigit ∧ ((a :: t) ≠ [] ∨ v ≠ []) then _ else _) = _
    rw [if_pos ⟨rfl, by rw [List.all_eq_true]; exact hv, Or.inl (by simp)⟩]

theorem takeWhile_digits_all (u : List Char) (hu : ∀ c ∈ u, c.isDigit = true) :
    u.takeWhile Char.isDigit = u := by
  induction u with
  | nil => rfl
  | cons a t ih =>
    have ha : Char.isDigit a = true := hu a (by simp)
    simp [List.takeWhile_cons, ha, ih (fun c hc => hu c (by simp [hc]))]

theorem dropWhile_digits_all (u : List Char) (hu : ∀ c ∈ u, c.isDigit = true) :
    u.dropWhile Char.isDigit = [] := by
  induction u with
  | nil => rfl
  | cons a t ih =>
    have ha : Char.isDigit a = true := hu a (by simp)
    simp [List.dropWhile_cons, ha, ih (fun c hc => hu c (by simp [hc]))]

theorem pyFloat_digits_only (u : List Char) (hu : ∀ c ∈ u, c.isDigit = true)
    (hne : u ≠ []) : pyFloat u = some ((charsToNat u : ℚ)) := by
  match u, hne with
  | a :: t, _ =>
    have ha : a.isDigit = true := hu a (by simp)
    have hm : a ≠ '-' := isDigit_ne a '-' ha (by decide)
    have hp : a ≠ '+' := isDigit_ne a '+' ha (by decide)
    show (if a = '-' then (pyFloatUnsigned t).map (fun q => -q)
          else if a = '+' then pyFloatUnsigned t
          else pyFloatUnsigned (a :: t)) = _
    rw [if_neg hm, if_neg hp]
    unfold pyFloatUnsigned
    rw [takeWhile_digits_all _ hu, dropWhile_digits_all _ hu]
    show (if (a :: t) = [] then Option.none else some ((charsToNat (a :: t) : ℚ))) = _
    rw [if_neg (by simp)]

/-! ### The two interesting branches of `parse_number` on clean input -/

theorem clean_of_classes (s : List Char)
    (h : ∀ c ∈ s, c.isDigit = true ∨ c = ',' ∨ c = '.') :
    ∀ c ∈ s, isPySpace c = false ∧ c ≠ 'V' ∧ c ≠ ' ' := by
  intro c hc
  rcases h c hc with hd | h' | h'
  · exact ⟨isDigit_not_space c hd, isDigit_ne c 'V' hd (by decide),
      isDigit_ne c ' ' hd (by decide)⟩
  · subst h'; exact ⟨by decide, by decide, by decide⟩
  · subst h'; exact ⟨by decide, by decide, by decide⟩

theorem normalizeParse_clean (s : List Char)
    (hcl : ∀ c ∈ s, isPySpace c = false ∧ c ≠ 'V' ∧ c ≠ ' ') :
    normalizeParse s =
      (if '.' ∈ s ∧ ',' ∈ s then
        if rfind ',' s < rfind '.' s then s.filter (fun c => c ≠ ',')
        else (s.filter (fun c => c ≠ '.')).map commaToDot
      else if ',' ∈ s then
        if ((splitComma s).getLastD []).length = 3 then s.filter (fun c => c ≠ ',')
        else s.map commaToDot
      else s) := by
  unfold normalizeParse
  rw [stripVND_id s (fun c hc => (hcl c hc).2.1),
    pyStrip_id s (fun c hc => (hcl c hc).1),
    filter_space_id s (fun c hc => (hcl c hc).2.2)]

theorem parse_clean_both (s : List Char)
    (hcl : ∀ c ∈ s, isPySpace c = false ∧ c ≠ 'V' ∧ c ≠ ' ')
    (h1 : '.' ∈ s) (h2 : ',' ∈ s) :
    parse_number (PyVal.str s) =
      if rfind ',' s < rfind '.' s then (pyFloat (s.filter (fun c => c ≠ ','))).getD 0
      else (pyFloat ((s.filter (fun c => c ≠ '.')).map commaToDot)).getD 0 := by
  have hne : s ≠ [] := by
    intro h
    subst h
    simp at h1
  show (if s = [] then (0 : ℚ) else parseStr s) = _
  rw [if_neg hne]
  unfold parseStr
  rw [normalizeParse_clean s hcl, if_pos ⟨h1, h2⟩,
    apply_ite (fun l => (pyFloat l).getD 0)]

theorem parse_clean_comma (s : List Char)
    (hcl : ∀ c ∈ s, isPySpace c = false ∧ c ≠ 'V' ∧ c ≠ ' ')
    (h1 : ',' ∈ s) (h2 : '.' ∉ s) :
    parse_number (PyVal.str s) =
      if ((splitComma s).getLastD []).length = 3 then (pyFloat (s.filter (fun c => c ≠ ','))).getD 0
      else (pyFloat (s.map commaToDot)).getD 0 := by
  have hne : s ≠ [] := by
    intro h
    subst h
    simp at h1
  show (if s = [] then (0 : ℚ) else parseStr s) = _
  rw [if_neg hne]
  unfold parseStr
  rw [normalizeParse_clean s hcl, if_neg (fun hb => h2 hb.1), if_pos h1,
    apply_ite (fun l => (pyFloat l).getD 0)]

/-! ### The parse/format round trip -/

theorem rfindAux_of_mem (c : Char) : ∀ (l : List Char), c ∈ l → ∃ i, rfindAux c l = some i := by
  intro l
  induction l with
  | nil => intro h; simp at h
  | cons a t ih =>
    intro h
    rcases List.mem_cons.mp h with h' | h'
    · subst h'
      cases hm : rfindAux c t with
      | some j => exact ⟨j + 1, by simp [rfindAux, hm]⟩
      | none => exact ⟨0, by simp [rfindAux, hm]⟩
    · rcases ih h' with ⟨j, hj⟩
      exact ⟨j + 1, by simp [rfindAux, hj]⟩

theorem filter_dot_map_swapSep : ∀ (l : List Char),
    (l.map swapSep).filter (fun c => c ≠ '.') = (l.filter (fun c => c ≠ ',')).map swapSep := by
  intro l
  induction l with
  | nil => rfl
  | cons a t ih =>
    by_cases h : a = ','
    · subst h
      rw [List.map_cons, List.filter_cons_of_neg (by simp [swapSep]),
        List.filter_cons_of_neg (by simp), ih]
    · rw [List.map_cons, List.filter_cons_of_pos (by simp [(swapSep_ne_comma_iff a).mpr h]),
        List.filter_cons_of_pos (by simp [h]), List.map_cons, ih]

theorem filter_ne_eq_self (x : Char) (l : List Char) (h : x ∉ l) :
    l.filter (fun c => c ≠ x) = l := by
  refine List.filter_eq_self.mpr (fun c hc => ?_)
  simp only [decide_eq_true_eq]
  intro h'
  subst h'
  exact h hc

theorem format_q_cents (n : ℕ) :
    format_q ((n : ℚ) / 100) = (pyFormatCents n).map swapSep := by
  have h1 : (100 : ℚ) * ((n : ℚ) / 100) = (n : ℚ) := by field_simp
  have h0 : ¬ ((n : ℚ) / 100 < 0) := not_lt.mpr (by positivity)
  simp only [format_q, h1, halfEven_natCast, if_neg h0]
  simp

theorem parse_pyFormat (ip fr : ℕ) (hfr : fr < 100) :
    parse_number (PyVal.str (((group3 (intChars ip)).reverse
        ++ '.' :: [digitChar (fr / 10), digitChar (fr % 10)]).map swapSep))
      = (ip : ℚ) + (fr : ℚ) / 100 := by
  have hT1 : (digitChar (fr / 10)).isDigit = true := digitChar_isDigit _ (by omega)
  have hT2 : (digitChar (fr % 10)).isDigit = true := digitChar_isDigit _ (by omega)
  have hB : ∀ c ∈ (intChars ip).reverse, c.isDigit = true :=
    fun c hc => intChars_digits ip c (List.mem_reverse.mp hc)
  have hBcomma : ',' ∉ (intChars ip) := by
    intro hc
    have := intChars_digits ip ',' hc
    simp at this
  have hBne : (intChars ip).reverse ≠ [] := by
    rw [Ne, List.reverse_eq_nil_iff]
    exact intChars_ne_nil ip
  have hTcomma : ',' ∉ [digitChar (fr / 10), digitChar (fr % 10)] := by
    intro hc
    rcases List.mem_cons.mp hc with h' | h'
    · rw [← h'] at hT1; simp at hT1
    · simp only [List.mem_singleton] at h'
      rw [← h'] at hT2; simp at hT2
  have hTdot : '.' ∉ [digitChar (fr / 10), digitChar (fr % 10)] := by
    intro hc
    rcases List.mem_cons.mp hc with h' | h'
    · rw [← h'] at hT1; simp at hT1
    · simp only [List.mem_singleton] at h'
      rw [← h'] at hT2; simp at hT2
  -- distribute the separator swap
  have hmap : (((group3 (intChars ip)).reverse
        ++ '.' :: [digitChar (fr / 10), digitChar (fr % 10)]).map swapSep)
      = ((group3 (intChars ip)).reverse.map swapSep)
        ++ ',' :: [digitChar (fr / 10), digitChar (fr % 10)] := by
    rw [List.map_append]
    simp only [List.map_cons, List.map_nil]
    rw [swapSep_digit _ hT1, swapSep_digit _ hT2]
    rfl
  rw [hmap]
  have hGclass : ∀ c ∈ (group3 (intChars ip)).reverse.map swapSep,
      c.isDigit = true ∨ c = '.' := by
    intro c hc
    rcases List.mem_map.mp hc with ⟨x, hx, hxc⟩
    rcases group3_mem _ x (List.mem_reverse.mp hx) with hxl | hxc'
    · have hd := intChars_digits ip x hxl
      rw [← hxc, swapSep_digit x hd]
      exact Or.inl hd
    · subst hxc'
      rw [← hxc]
      exact Or.inr rfl
  have hGcomma : ',' ∉ (group3 (intChars ip)).reverse.map swapSep := by
    intro hc
    rcases hGclass ',' hc with h' | h'
    · simp at h'
    · simp at h'
  have hclass : ∀ c ∈ ((group3 (intChars ip)).reverse.map swapSep)
        ++ ',' :: [digitChar (fr / 10), digitChar (fr % 10)],
      c.isDigit = true ∨ c = ',' ∨ c = '.' := by
    intro c hc
    rcases List.mem_append.mp hc with h' | h'
    · rcases hGclass c h' with h'' | h''
      · exact Or.inl h''
      · exact Or.inr (Or.inr h'')
    · rcases List.mem_cons.mp h' with h'' | h''
      · exact Or.inr (Or.inl h'')
      · rcases List.mem_cons.mp h'' with h3 | h3
        · subst h3; exact Or.inl hT1
        · simp only [List.mem_singleton] at h3
          subst h3; exact Or.inl hT2
  have hcomma_mem : ',' ∈ ((group3 (intChars ip)).reverse.map swapSep)
        ++ ',' :: [digitChar (fr / 10), digitChar (fr % 10)] := by simp
  -- the two fraction digits, as a number
  have hT : charsToNat [digitChar (fr / 10), digitChar (fr % 10)] = fr := by
    rw [charsToNat_two _ _ (by omega) (by omega)]
    omega
  by_cases hip : 1000 ≤ ip
  · -- grouped case: both separators occur, the comma comes last
    have hcomma_g : ',' ∈ group3 (intChars ip) :=
      comma_mem_group3 _ (intChars_len_ge ip hip)
    have hdot_G : '.' ∈ (group3 (intChars ip)).reverse.map swapSep :=
      List.mem_map.mpr ⟨',', List.mem_reverse.mpr hcomma_g, rfl⟩
    rw [parse_clean_both _ (clean_of_classes _ hclass) (List.mem_append.mpr (Or.inl hdot_G))
      hcomma_mem]
    have hrc : rfind ','
        (((group3 (intChars ip)).reverse.map swapSep)
          ++ ',' :: [digitChar (fr / 10), digitChar (fr % 10)])
        = (((group3 (intChars ip)).reverse.map swapSep).length : ℤ) := by
      unfold rfind
      rw [rfindAux_append_self ',' _ _ hTcomma]
    rcases rfindAux_of_mem '.' _ hdot_G with ⟨i, hi⟩
    have hrd : rfind '.'
        (((group3 (intChars ip)).reverse.map swapSep)
          ++ ',' :: [digitChar (fr / 10), digitChar (fr % 10)]) = (i : ℤ) := by
      unfold rfind
      rw [rfindAux_append_notmem '.' _ _ (by
        intro hc
        rcases List.mem_cons.mp hc with h' | h'
        · simp at h'
        · exact hTdot h'), hi]
    have hilt : i < ((group3 (intChars ip)).reverse.map swapSep).length :=
      rfindAux_lt_length '.' _ i hi
    rw [if_neg (by rw [hrc, hrd]; omega)]
    -- remove the grouping dots, then turn the comma into the decimal dot
    have hfilter : ((((group3 (intChars ip)).reverse.map swapSep)
          ++ ',' :: [digitChar (fr / 10), digitChar (fr % 10)]).filter (fun c => c ≠ '.'))
        = (intChars ip).reverse ++ ',' :: [digitChar (fr / 10), digitChar (fr % 10)] := by
      rw [List.filter_append, filter_dot_map_swapSep, List.filter_reverse,
        group3_filter_comma _ hBcomma,
        map_swapSep_digits _ hB, List.filter_cons_of_pos (by simp),
        filter_ne_eq_self '.' _ hTdot]
    rw [hfilter]
    have hmap2 : (((intChars ip).reverse
          ++ ',' :: [digitChar (fr / 10), digitChar (fr % 10)]).map commaToDot)
        = (intChars ip).reverse ++ '.' :: [digitChar (fr / 10), digitChar (fr % 10)] := by
      rw [List.map_append, map_commaToDot_digits _ hB]
      simp only [List.map_cons, List.map_nil]
      rw [commaToDot_digit _ hT1, commaToDot_digit _ hT2]
      rfl
    rw [hmap2, pyFloat_digits _ _ hB (by
      intro c hc
      rcases List.mem_cons.mp hc with h' | h'
      · subst h'; exact hT1
      · simp only [List.mem_singleton] at h'
        subst h'; exact hT2) hBne]
    rw [Option.getD_some, charsToNat_intChars, hT]
    norm_num
  · -- short case: no grouping dot, only the decimal comma
    have hshort : group3 (intChars ip) = intChars ip :=
      group3_short _ (intChars_len_le ip (by omega))
    have hGB : (group3 (intChars ip)).reverse.map swapSep = (intChars ip).reverse := by
      rw [hshort, map_swapSep_digits _ hB]
    rw [hGB] at hcomma_mem hclass ⊢
    have hdot_out : '.' ∉ (intChars ip).reverse
        ++ ',' :: [digitChar (fr / 10), digitChar (fr % 10)] := by
      intro hc
      rcases List.mem_append.mp hc with h' | h'
      · have := hB '.' h'
        simp at this
      · rcases List.mem_cons.mp h' with h'' | h''
        · simp at h''
        · exact hTdot h''
    rw [parse_clean_comma _ (clean_of_classes _ hclass) hcomma_mem hdot_out]
    have hsplit : splitComma ((intChars ip).reverse
          ++ ',' :: [digitChar (fr / 10), digitChar (fr % 10)])
        = [(intChars ip).reverse, [digitChar (fr / 10), digitChar (fr % 10)]] := by
      rw [splitComma_append _ _ (by
        intro hc
        have := hB ',' hc
        simp at this), splitComma_no_comma _ hTcomma]
    rw [hsplit]
    rw [if_neg (by simp)]
    have hmap2 : (((intChars ip).reverse
          ++ ',' :: [digitChar (fr / 10), digitChar (fr % 10)]).map commaToDot)
        = (intChars ip).reverse ++ '.' :: [digitChar (fr / 10), digitChar (fr % 10)] := by
      rw [List.map_append, map_commaToDot_digits _ hB]
      simp only [List.map_cons, List.map_nil]
      rw [commaToDot_digit _ hT1, commaToDot_digit _ hT2]
      rfl
    rw [hmap2, pyFloat_digits _ _ hB (by
      intro c hc
      rcases List.mem_cons.mp hc with h' | h'
      · subst h'; exact hT1
      · simp only [List.mem_singleton] at h'
        subst h'; exact hT2) hBne]
    rw [Option.getD_some, charsToNat_intChars, hT]
    norm_num

theorem parse_format_cents (n : ℕ) :
    parse_number (PyVal.str (format_q ((n : ℚ) / 100))) = (n : ℚ) / 100 := by
  rw [format_q_cents]
  have h := parse_pyFormat (n / 100) (n % 100) (Nat.mod_lt n (by omega))
  have hshape : pyFormatCents n = (group3 (intChars (n / 100))).reverse
      ++ '.' :: [digitChar (n % 100 / 10), digitChar (n % 100 % 10)] := rfl
  rw [hshape, h]
  have hnm : (n : ℚ) = 100 * ((n / 100 : ℕ) : ℚ) + ((n % 100 : ℕ) : ℚ) := by
    have h2 : (100 * (n / 100) + n % 100 : ℕ) = n := Nat.div_add_mod n 100
    calc (n : ℚ) = ((100 * (n / 100) + n % 100 : ℕ) : ℚ) := by rw [h2]
    _ = 100 * ((n / 100 : ℕ) : ℚ) + ((n % 100 : ℕ) : ℚ) := by push_cast; ring
  rw [hnm]
  ring

/-! ### Engine lemmas -/

theorem format_vn_num (q : ℚ) : format_vn (PyVal.num q) = PyVal.str (format_q q) := rfl

theorem processRow_none (f s : List Char → Option ℚ) (r : Row)
    (h : priceFor f s r = Option.none) :
    processRow f s r = ({ r with
        quantity := format_vn (PyVal.num (parse_number r.quantity))
        buy_price := format_vn (PyVal.num (parse_number r.buy_price))
        current_price := PyVal.str []
        profit_loss := PyVal.str "0,00".toList }, 0, 0) := by
  unfold processRow
  rw [h]

theorem processRow_some (f s : List Char → Option ℚ) (r : Row) (p : ℚ)
    (h : priceFor f s r = some p) :
    processRow f s r = ({ r with
        quantity := format_vn (PyVal.num (parse_number r.quantity))
        buy_price := format_vn (PyVal.num (parse_number r.buy_price))
        current_price := format_vn (PyVal.num p)
        profit_loss := format_vn (PyVal.num
          (p * parse_number r.quantity - parse_number r.buy_price * parse_number r.quantity)) },
      parse_number r.buy_price * parse_number r.quantity, p * parse_number r.quantity) := by
  unfold processRow
  rw [h]

theorem processRow_items (f s : List Char → Option ℚ) (r : Row) :
    (processRow f s r).1.items = r.items := by
  unfold processRow
  cases priceFor f s r <;> rfl

theorem processRow_type (f s : List Char → Option ℚ) (r : Row) :
    (processRow f s r).1.type = r.type := by
  unfold processRow
  cases priceFor f s r <;> rfl

theorem processRow_quantity (f s : List Char → Option ℚ) (r : Row) :
    (processRow f s r).1.quantity = format_vn (PyVal.num (parse_number r.quantity)) := by
  unfold processRow
  cases priceFor f s r <;> rfl

theorem processRow_buy_price (f s : List Char → Option ℚ) (r : Row) :
    (processRow f s r).1.buy_price = format_vn (PyVal.num (parse_number r.buy_price)) := by
  unfold processRow
  cases priceFor f s r <;> rfl

theorem priceFor_congr (f s : List Char → Option ℚ) (r r' : Row)
    (hi : r'.items = r.items) (ht : r'.type = r.type) :
    priceFor f s r' = priceFor f s r := by
  unfold priceFor codeOf typOf
  rw [hi, ht]

theorem recalcLoop_fst (f s : List Char → Option ℚ) :
    ∀ (l : List Row), (recalcLoop f s l).1 = l.map (fun r => (processRow f s r).1) := by
  intro l
  induction l with
  | nil => rfl
  | cons r t ih => simp [recalcLoop, ih]

theorem recalcLoop_append (f s : List Char → Option ℚ) (a b : List Row) :
    recalcLoop f s (a ++ b) = ((recalcLoop f s a).1 ++ (recalcLoop f s b).1,
      (recalcLoop f s a).2.1 + (recalcLoop f s b).2.1,
      (recalcLoop f s a).2.2 + (recalcLoop f s b).2.2) := by
  induction a with
  | nil => simp [recalcLoop]
  | cons r t ih => simp [recalcLoop, ih, add_assoc]

/-- Re-parsing the engine's own rendering of a whole-cents value is lossless. -/
theorem reparse_format_vn (v : PyVal) (k : ℕ)
    (h : parse_number v = (k : ℚ) / 100) :
    parse_number (format_vn (PyVal.num (parse_number v))) = parse_number v := by
  rw [h, format_vn_num, parse_format_cents]

theorem processRow_contrib_none (f s : List Char → Option ℚ) (r : Row)
    (h : priceFor f s r = Option.none) :
    (processRow f s r).2 = (0, 0) := by
  rw [processRow_none f s r h]

theorem processRow_contrib_some (f s : List Char → Option ℚ) (r : Row) (p : ℚ)
    (h : priceFor f s r = some p) :
    (processRow f s r).2
      = (parse_number r.buy_price * parse_number r.quantity, p * parse_number r.quantity) := by
  rw [processRow_some f s r p h]

/-- A processed row contributes to the next pass exactly what its source row
contributed to this pass, provided its number fields were whole cents. -/
theorem processRow_replay (f s : List Char → Option ℚ) (r : Row)
    (hq : ∃ k : ℕ, parse_number r.quantity = (k : ℚ) / 100)
    (hb : ∃ k : ℕ, parse_number r.buy_price = (k : ℚ) / 100) :
    (processRow f s (processRow f s r).1).2 = (processRow f s r).2 := by
  rcases hq with ⟨kq, hkq⟩
  rcases hb with ⟨kb, hkb⟩
  have hpq : parse_number ((processRow f s r).1.quantity) = parse_number r.quantity := by
    rw [processRow_quantity]
    exact reparse_format_vn _ kq hkq
  have hpb : parse_number ((processRow f s r).1.buy_price) = parse_number r.buy_price := by
    rw [processRow_buy_price]
    exact reparse_format_vn _ kb hkb
  have hpf : priceFor f s (processRow f s r).1 = priceFor f s r :=
    priceFor_congr f s r _ (processRow_items f s r) (processRow_type f s r)
  cases hp : priceFor f s r with
  | none =>
    rw [processRow_contrib_none f s _ (by rw [hpf, hp]),
      processRow_contrib_none f s r hp]
  | some p =>
    rw [processRow_contrib_some f s _ p (by rw [hpf, hp]),
      processRow_contrib_some f s r p hp, hpq, hpb]

theorem recalcLoop_snd1_append (f s : List Char → Option ℚ) (a b : List Row) :
    (recalcLoop f s (a ++ b)).2.1 = (recalcLoop f s a).2.1 + (recalcLoop f s b).2.1 := by
  rw [recalcLoop_append]

theorem recalcLoop_snd2_append (f s : List Char → Option ℚ) (a b : List Row) :
    (recalcLoop f s (a ++ b)).2.2 = (recalcLoop f s a).2.2 + (recalcLoop f s b).2.2 := by
  rw [recalcLoop_append]

theorem recalcLoop_snd1_cons (f s : List Char → Option ℚ) (r : Row) (t : List Row) :
    (recalcLoop f s (r :: t)).2.1 = (processRow f s r).2.1 + (recalcLoop f s t).2.1 := rfl

theorem recalcLoop_snd2_cons (f s : List Char → Option ℚ) (r : Row) (t : List Row) :
    (recalcLoop f s (r :: t)).2.2 = (processRow f s r).2.2 + (recalcLoop f s t).2.2 := rfl

theorem filter_rows_eq_self (l : List Row) (h : ∀ r ∈ l, r.items ≠ "TOTAL".toList) :
    l.filter (fun r => r.items ≠ "TOTAL".toList) = l :=
  List.filter_eq_self.mpr (fun r hr => by
    simp only [decide_eq_true_eq]
    exact h r hr)

/-! ### Claim theorems -/

/-- C1: for an input holding list without a TOTAL row, `recalc_prices_and_profit`
returns input length + 1 rows, exactly one of which is the TOTAL row; that row
is last, the non-TOTAL rows keep the input order (witnessed by the `items`
column, which the engine never changes), and on the empty input the result is
exactly one TOTAL row whose `profit_loss` is the zero-formatted string `0,00`. -/
theorem C1_reconcile_shape (f s : List Char → Option ℚ) (df : List Row)
    (h : ∀ r ∈ df, r.items ≠ "TOTAL".toList) :
    (recalc_prices_and_profit f s df).length = df.length + 1
    ∧ (recalc_prices_and_profit f s df).countP (fun r => r.items = "TOTAL".toList) = 1
    ∧ (recalc_prices_and_profit f s df).map Row.items = df.map Row.items ++ ["TOTAL".toList]
    ∧ ((recalc_prices_and_profit f s df).getLast?).map Row.items = some "TOTAL".toList
    ∧ recalc_prices_and_profit f s ([] : List Row) = [totalRow 0 0]
    ∧ (totalRow 0 0).profit_loss = PyVal.str "0,00".toList := by
  have hfilter : df.filter (fun r => r.items ≠ "TOTAL".toList) = df := filter_rows_eq_self df h
  have hmap : recalc_prices_and_profit f s df
      = df.map (fun r => (processRow f s r).1)
        ++ [totalRow (recalcLoop f s df).2.1 (recalcLoop f s df).2.2] := by
    unfold recalc_prices_and_profit
    rw [hfilter]
    show (recalcLoop f s df).1
        ++ [totalRow (recalcLoop f s df).2.1 (recalcLoop f s df).2.2] = _
    rw [recalcLoop_fst]
  refine ⟨?_, ?_, ?_, ?_, rfl, ?_⟩
  · rw [hmap]
    simp
  · rw [hmap, List.countP_append]
    have h1 : (df.map (fun r => (processRow f s r).1)).countP
        (fun r => r.items = "TOTAL".toList) = 0 := by
      rw [List.countP_eq_zero]
      intro r hr
      rcases List.mem_map.mp hr with ⟨x, hx, hxr⟩
      subst hxr
      simp only [decide_eq_true_eq]
      rw [processRow_items]
      exact h x hx
    rw [h1]
    rfl
  · rw [hmap, List.map_append, List.map_map]
    congr 1
    exact List.map_congr_left (fun r _ => processRow_items f s r)
  · rw [hmap, List.getLast?_concat]
    rfl
  · show format_vn (PyVal.num ((0 : ℚ) - 0)) = PyVal.str "0,00".toList
    rw [format_vn_num]
    have h0 : (0 : ℚ) - 0 = ((0 : ℕ) : ℚ) / 100 := by norm_num
    rw [h0, format_q_cents]
    rfl

theorem C1_reconcile_shape_witness :
    (recalc_prices_and_profit (fun _ => Option.none) (fun _ => Option.none)
      [{ items := "AAA".toList, type := "fund".toList, quantity := PyVal.str "10".toList,
         buy_price := PyVal.str "100".toList, current_price := PyVal.str [],
         profit_loss := PyVal.str [], total_buy := PyVal.str [],
         total_current := PyVal.str [] }]).length = 1 + 1 :=
  (C1_reconcile_shape (fun _ => Option.none) (fun _ => Option.none)
    [{ items := "AAA".toList, type := "fund".toList, quantity := PyVal.str "10".toList,
       buy_price := PyVal.str "100".toList, current_price := PyVal.str [],
       profit_loss := PyVal.str [], total_buy := PyVal.str [],
       total_current := PyVal.str [] }] (by decide)).1

/-- C9: after a completed pass the scheduler's next trigger instant is 15:00 on
the next calendar day, the sleep till then is clamped to be non-negative no
matter how late the post-pass clock reads, and a pass is triggered exactly when
the local time is a weekday (Monday to Friday) during hour 15. -/
theorem C9_daily_updater (t afterT : ℕ) :
    0 ≤ (daily_updater_step t afterT).2
    ∧ ((daily_updater_step t afterT).1 = true ↔ (weekdayOf t < 5 ∧ hourOf t = 15))
    ∧ dayIndex (nextRun t) = dayIndex t + 1
    ∧ secOfDay (nextRun t) = 15 * 3600
    ∧ (∀ t2 : ℕ, 0 ≤ sleepSeconds t t2) := by
  have hsleep : ∀ t2 : ℕ, 0 ≤ sleepSeconds t t2 := fun t2 => le_max_right _ 0
  refine ⟨?_, ?_, ?_, ?_, hsleep⟩
  · unfold daily_updater_step
    by_cases h : weekdayOf t < 5 ∧ hourOf t = 15
    · rw [if_pos h]
      exact hsleep afterT
    · rw [if_neg h]
      norm_num
  · unfold daily_updater_step
    by_cases h : weekdayOf t < 5 ∧ hourOf t = 15
    · rw [if_pos h]
      simpa using h
    · rw [if_neg h]
      simpa using h
  · unfold nextRun dayIndex
    omega
  · unfold nextRun secOfDay dayIndex
    omega

/-- C3: a holding for which no price is obtained (fetch failure, or an asset
type other than fund/stock, which never fetches at all) is rendered with an
empty current price and the literal profit/loss string `0,00`, contributes
nothing to either totals accumulator, and leaves the processing of every other
holding in the pass untouched. -/
theorem C3_absent_price (f s : List Char → Option ℚ) (r : Row) (l₁ l₂ : List Row)
    (hr : priceFor f s r = Option.none)
    (hT1 : ∀ x ∈ l₁, x.items ≠ "TOTAL".toList)
    (hT2 : ∀ x ∈ l₂, x.items ≠ "TOTAL".toList)
    (hrT : r.items ≠ "TOTAL".toList) :
    (processRow f s r).1.current_price = PyVal.str []
    ∧ (processRow f s r).1.profit_loss = PyVal.str "0,00".toList
    ∧ (processRow f s r).2 = (0, 0)
    ∧ recalcTotals f s (l₁ ++ r :: l₂) = recalcTotals f s (l₁ ++ l₂)
    ∧ recalc_prices_and_profit f s (l₁ ++ r :: l₂)
        = l₁.map (fun x => (processRow f s x).1)
          ++ (processRow f s r).1 :: l₂.map (fun x => (processRow f s x).1)
          ++ [totalRow (recalcTotals f s (l₁ ++ l₂)).1 (recalcTotals f s (l₁ ++ l₂)).2]
    ∧ (∀ x : Row, typOf x ≠ "fund".toList → typOf x ≠ "stock".toList →
        priceFor f s x = Option.none) := by
  have hc := processRow_contrib_none f s r hr
  have hc1 : (processRow f s r).2.1 = 0 := by rw [hc]
  have hc2 : (processRow f s r).2.2 = 0 := by rw [hc]
  have hfilterBig : (l₁ ++ r :: l₂).filter (fun x => x.items ≠ "TOTAL".toList)
      = l₁ ++ r :: l₂ := by
    apply filter_rows_eq_self
    intro x hx
    rcases List.mem_append.mp hx with h' | h'
    · exact hT1 x h'
    · rcases List.mem_cons.mp h' with h'' | h''
      · subst h''; exact hrT
      · exact hT2 x h''
  have hfilterSmall : (l₁ ++ l₂).filter (fun x => x.items ≠ "TOTAL".toList) = l₁ ++ l₂ := by
    apply filter_rows_eq_self
    intro x hx
    rcases List.mem_append.mp hx with h' | h'
    · exact hT1 x h'
    · exact hT2 x h'
  have hd' : (recalcLoop f s (l₁ ++ r :: l₂)).2 = (recalcLoop f s (l₁ ++ l₂)).2 := by
    rw [Prod.ext_iff]
    constructor
    · rw [recalcLoop_snd1_append, recalcLoop_snd1_append, recalcLoop_snd1_cons, hc1]
      ring
    · rw [recalcLoop_snd2_append, recalcLoop_snd2_append, recalcLoop_snd2_cons, hc2]
      ring
  have hd : recalcTotals f s (l₁ ++ r :: l₂) = recalcTotals f s (l₁ ++ l₂) := by
    unfold recalcTotals
    rw [hfilterBig, hfilterSmall]
    exact hd'
  refine ⟨by rw [processRow_none f s r hr], by rw [processRow_none f s r hr], hc, hd, ?_, ?_⟩
  · unfold recalc_prices_and_profit
    rw [hfilterBig]
    show (recalcLoop f s (l₁ ++ r :: l₂)).1
        ++ [totalRow (recalcLoop f s (l₁ ++ r :: l₂)).2.1
              (recalcLoop f s (l₁ ++ r :: l₂)).2.2] = _
    rw [recalcLoop_fst, List.map_append, List.map_cons]
    have ht1 : (recalcLoop f s (l₁ ++ r :: l₂)).2.1 = (recalcTotals f s (l₁ ++ l₂)).1 := by
      unfold recalcTotals
      rw [hfilterSmall]
      exact congrArg Prod.fst hd'
    have ht2 : (recalcLoop f s (l₁ ++ r :: l₂)).2.2 = (recalcTotals f s (l₁ ++ l₂)).2 := by
      unfold recalcTotals
      rw [hfilterSmall]
      exact congrArg Prod.snd hd'
    rw [ht1, ht2]
  · intro x hx1 hx2
    unfold priceFor
    rw [if_neg hx1, if_neg hx2]

theorem C3_absent_price_witness :
    (processRow (fun _ => some 1) (fun _ => some 2)
      { items := "BBB".toList, type := "bond".toList, quantity := PyVal.str "10".toList,
        buy_price := PyVal.str "100".toList, current_price := PyVal.str [],
        profit_loss := PyVal.str [], total_buy := PyVal.str [],
        total_current := PyVal.str [] }).1.profit_loss = PyVal.str "0,00".toList :=
  (C3_absent_price (fun _ => some 1) (fun _ => some 2)
    { items := "BBB".toList, type := "bond".toList, quantity := PyVal.str "10".toList,
      buy_price := PyVal.str "100".toList, current_price := PyVal.str [],
      profit_loss := PyVal.str [], total_buy := PyVal.str [],
      total_current := PyVal.str [] } [] [] (by decide) (by decide) (by decide)
    (by decide)).2.1

/-- C2: for every non-negative value with at most two fractional digits (and
below the practical display limit), parsing the VN-formatted rendering gives
back the value exactly. -/
theorem C2_roundtrip (x : ℚ) (h : ∃ n : ℕ, x = (n : ℚ) / 100) (hlt : x < 10 ^ 15) :
    parse_number (format_vn (PyVal.num x)) = x := by
  rcases h with ⟨n, hn⟩
  subst hn
  rw [format_vn_num]
  exact parse_format_cents n

theorem C2_roundtrip_witness :
    parse_number (format_vn (PyVal.num (12345.6 : ℚ))) = (12345.6 : ℚ) :=
  C2_roundtrip 12345.6 ⟨1234560, by norm_num⟩ (by norm_num)

/-- C6: parse_number is total and collapses every unparseable input — the
empty string, arbitrary text, a missing value — to `0`; no failure escapes. -/
theorem C6_parse_total :
    parse_number (PyVal.str []) = 0
    ∧ parse_number (PyVal.str "abc".toList) = 0
    ∧ (∀ s : List Char, pyFloat (normalizeParse s) = Option.none →
        parse_number (PyVal.str s) = 0)
    ∧ parse_number PyVal.none = 0 := by
  refine ⟨rfl, rfl, ?_, rfl⟩
  intro s hnone
  by_cases hs : s = []
  · subst hs; rfl
  · show (if s = [] then (0 : ℚ) else parseStr s) = 0
    rw [if_neg hs]
    unfold parseStr
    rw [hnone]
    rfl

theorem C6_parse_total_witness :
    parse_number (PyVal.str "12.34.56".toList) = 0 :=
  C6_parse_total.2.2.1 "12.34.56".toList rfl

/-- C10: format_vn never raises — any value that does not convert to a float
(a non-numeric string, a missing value) is returned unchanged. -/
theorem C10_format_passthrough (v : PyVal) (h : tryFloat v = Option.none) :
    format_vn v = v := by
  unfold format_vn
  rw [h]

theorem C10_format_passthrough_witness :
    format_vn (PyVal.str "abc".toList) = PyVal.str "abc".toList
    ∧ format_vn PyVal.none = PyVal.none :=
  ⟨C10_format_passthrough _ rfl, C10_format_passthrough _ rfl⟩

/-- C7: the stock price source multiplies the raw scraped value by 1000 (and
rounds to 2 decimals); the fund source applies no scaling.  Raw `64.40`
becomes `64400.00` through the stock source and `64.4` through the fund one. -/
theorem C7_stock_scaling :
    fetch_stock_price_from_text "64.40".toList = some (64400 : ℚ)
    ∧ (∀ (txt : List Char) (p : ℚ), pyFloat (txt.filter (fun c => c ≠ ',')) = some p →
        fetch_stock_price_from_text txt = some (pyRound2 (p * 1000)))
    ∧ fetch_fund_price_from_text "64.40".toList = (64.4 : ℚ) := by
  have hgen : ∀ (txt : List Char) (p : ℚ), pyFloat (txt.filter (fun c => c ≠ ',')) = some p →
      fetch_stock_price_from_text txt = some (pyRound2 (p * 1000)) := by
    intro txt p h
    unfold fetch_stock_price_from_text
    rw [h]
    rfl
  have hsplit : "64.40".toList = ['6', '4'] ++ '.' :: ['4', '0'] := rfl
  have hfloat : pyFloat "64.40".toList = some ((64 : ℚ) + (40 : ℚ) / (10 : ℚ) ^ 2) := by
    rw [hsplit, pyFloat_digits ['6', '4'] ['4', '0'] (by decide) (by decide) (by decide)]
    rw [show charsToNat ['6', '4'] = 64 from rfl, show charsToNat ['4', '0'] = 40 from rfl]
    norm_num
  refine ⟨?_, hgen, ?_⟩
  · have h1 := hgen "64.40".toList ((64 : ℚ) + (40 : ℚ) / (10 : ℚ) ^ 2)
      (by rw [show ("64.40".toList.filter (fun c => c ≠ ',')) = "64.40".toList from rfl]; exact hfloat)
    rw [h1]
    have h2 : ((64 : ℚ) + (40 : ℚ) / (10 : ℚ) ^ 2) * 1000 = ((6440000 : ℕ) : ℚ) / 100 := by
      norm_num
    have h3 : pyRound2 (((64 : ℚ) + (40 : ℚ) / (10 : ℚ) ^ 2) * 1000) = 64400 := by
      unfold pyRound2
      rw [h2, show (100 : ℚ) * (((6440000 : ℕ) : ℚ) / 100) = ((6440000 : ℕ) : ℚ) from by
        field_simp, halfEven_natCast]
      norm_num
    rw [h3]
  · unfold fetch_fund_price_from_text
    rw [stripVND_id _ (by decide)]
    show (if "64.40".toList = [] then (0 : ℚ) else parseStr "64.40".toList) = _
    rw [if_neg (by decide)]
    unfold parseStr
    rw [show normalizeParse "64.40".toList = "64.40".toList from rfl, hfloat]
    norm_num

theorem C7_stock_scaling_witness :
    fetch_stock_price_from_text "2,5".toList
      = some (pyRound2 ((25 : ℚ) * 1000)) :=
  C7_stock_scaling.2.1 "2,5".toList 25 (by
    rw [show ("2,5".toList.filter (fun c => c ≠ ',')) = ['2', '5'] from rfl]
    rfl)

/-- C5: separator disambiguation of parse_number — with only commas present, a
3-character tail makes the comma a thousands separator (removed), anything
else makes it the decimal separator; with both separators the one occurring
later is the decimal one; and the three reference examples hold. -/
theorem C5_separator_rules :
    parse_number (PyVal.str "31,953".toList) = 31953
    ∧ parse_number (PyVal.str "98.020,00".toList) = 98020
    ∧ parse_number (PyVal.str "148,00".toList) = 148
    ∧ (∀ s : List Char, (∀ c ∈ s, isPySpace c = false ∧ c ≠ 'V' ∧ c ≠ ' ') →
        ',' ∈ s → '.' ∉ s →
        ((((splitComma s).getLastD []).length = 3 →
            parse_number (PyVal.str s) = (pyFloat (s.filter (fun c => c ≠ ','))).getD 0)
          ∧ (((splitComma s).getLastD []).length ≠ 3 →
            parse_number (PyVal.str s) = (pyFloat (s.map commaToDot)).getD 0)))
    ∧ (∀ s : List Char, (∀ c ∈ s, isPySpace c = false ∧ c ≠ 'V' ∧ c ≠ ' ') →
        '.' ∈ s → ',' ∈ s →
        ((rfind ',' s < rfind '.' s →
            parse_number (PyVal.str s) = (pyFloat (s.filter (fun c => c ≠ ','))).getD 0)
          ∧ (¬ rfind ',' s < rfind '.' s →
            parse_number (PyVal.str s)
              = (pyFloat ((s.filter (fun c => c ≠ '.')).map commaToDot)).getD 0))) := by
  have hcomma : ∀ s : List Char, (∀ c ∈ s, isPySpace c = false ∧ c ≠ 'V' ∧ c ≠ ' ') →
      ',' ∈ s → '.' ∉ s →
      ((((splitComma s).getLastD []).length = 3 →
          parse_number (PyVal.str s) = (pyFloat (s.filter (fun c => c ≠ ','))).getD 0)
        ∧ (((splitComma s).getLastD []).length ≠ 3 →
          parse_number (PyVal.str s) = (pyFloat (s.map commaToDot)).getD 0)) := by
    intro s hcl h1 h2
    constructor
    · intro hlen
      rw [parse_clean_comma s hcl h1 h2, if_pos hlen]
    · intro hlen
      rw [parse_clean_comma s hcl h1 h2, if_neg hlen]
  have hboth : ∀ s : List Char, (∀ c ∈ s, isPySpace c = false ∧ c ≠ 'V' ∧ c ≠ ' ') →
      '.' ∈ s → ',' ∈ s →
      ((rfind ',' s < rfind '.' s →
          parse_number (PyVal.str s) = (pyFloat (s.filter (fun c => c ≠ ','))).getD 0)
        ∧ (¬ rfind ',' s < rfind '.' s →
          parse_number (PyVal.str s)
            = (pyFloat ((s.filter (fun c => c ≠ '.')).map commaToDot)).getD 0)) := by
    intro s hcl h1 h2
    constructor
    · intro hlt
      rw [parse_clean_both s hcl h1 h2, if_pos hlt]
    · intro hlt
      rw [parse_clean_both s hcl h1 h2, if_neg hlt]
  refine ⟨?_, ?_, ?_, hcomma, hboth⟩
  · have h := (hcomma "31,953".toList (by decide) (by decide) (by decide)).1 (by decide)
    rw [h, show ("31,953".toList.filter (fun c => c ≠ ',')) = ['3', '1', '9', '5', '3'] from rfl]
    rw [pyFloat_digits_only ['3', '1', '9', '5', '3'] (by decide) (by decide)]
    rw [show charsToNat ['3', '1', '9', '5', '3'] = 31953 from rfl]
    norm_num
  · have h := (hboth "98.020,00".toList (by decide) (by decide) (by decide)).2 (by decide)
    rw [h, show (("98.020,00".toList.filter (fun c => c ≠ '.')).map commaToDot)
        = ['9', '8', '0', '2', '0'] ++ '.' :: ['0', '0'] from rfl]
    rw [pyFloat_digits ['9', '8', '0', '2', '0'] ['0', '0'] (by decide) (by decide) (by decide)]
    rw [show charsToNat ['9', '8', '0', '2', '0'] = 98020 from rfl,
      show charsToNat ['0', '0'] = 0 from rfl]
    norm_num
  · have h := (hcomma "148,00".toList (by decide) (by decide) (by decide)).2 (by decide)
    rw [h, show ("148,00".toList.map commaToDot) = ['1', '4', '8'] ++ '.' :: ['0', '0'] from rfl]
    rw [pyFloat_digits ['1', '4', '8'] ['0', '0'] (by decide) (by decide) (by decide)]
    rw [show charsToNat ['1', '4', '8'] = 148 from rfl,
      show charsToNat ['0', '0'] = 0 from rfl]
    norm_num

theorem C5_separator_rules_witness :
    parse_number (PyVal.str "5,1234".toList)
      = (pyFloat ("5,1234".toList.map commaToDot)).getD 0 :=
  (C5_separator_rules.2.2.2.1 "5,1234".toList (by decide) (by decide) (by decide)).2
    (by decide)

/-! ### Corrected claims: normalization rounds to two decimals -/

theorem format_q_eval (q : ℚ) (n : ℕ) (h0 : ¬ q < 0) (hc : halfEven (100 * q) = ((n : ℕ) : ℤ)) :
    format_q q = (pyFormatCents n).map swapSep := by
  simp only [format_q, hc, if_neg h0]
  simp

/-- The engine's rendering of 1.2345 re-parses as 1.23: formatting rounds to
two fractional digits. -/
theorem parse_format_12345 :
    parse_number (PyVal.str (format_q (1.2345 : ℚ))) = (123 : ℚ) / 100 := by
  have h0 : ¬ (1.2345 : ℚ) < 0 := by norm_num
  have hc : halfEven (100 * (1.2345 : ℚ)) = ((123 : ℕ) : ℤ) := by
    rw [show (100 : ℚ) * 1.2345 = 123.45 from by norm_num]
    have h := halfEven_eq_low (123.45 : ℚ) 123 (by norm_num) (by norm_num)
    rw [h]
    norm_num
  rw [format_q_eval _ 123 h0 hc]
  rw [show pyFormatCents 123 = (group3 (intChars 1)).reverse
      ++ '.' :: [digitChar (23 / 10), digitChar (23 % 10)] from rfl]
  rw [parse_pyFormat 1 23 (by omega)]
  norm_num

/-- The concrete holding used to exhibit the rounding loss: quantity 1.2345
(more than two fractional digits), bought at 0, priced as a fund. -/
def rowQ : Row where
  items := "AAA".toList
  type := "fund".toList
  quantity := PyVal.num (1.2345 : ℚ)
  buy_price := PyVal.num 0
  current_price := PyVal.str []
  profit_loss := PyVal.str []
  total_buy := PyVal.str []
  total_current := PyVal.str []

theorem rowQ_price :
    priceFor (fun _ => some 1) (fun _ => Option.none) rowQ = some 1 := rfl

/-- C8 counterexample: the claim "re-parsing the output quantity equals the
parsed input quantity" fails — the engine formats 1.2345 as `1,23`, which
re-parses to 1.23. -/
theorem C8_frame_counterexample :
    parse_number rowQ.quantity = (1.2345 : ℚ)
    ∧ parse_number ((processRow (fun _ => some 1) (fun _ => Option.none) rowQ).1.quantity)
        ≠ parse_number rowQ.quantity := by
  constructor
  · rfl
  · rw [processRow_quantity]
    rw [show parse_number rowQ.quantity = (1.2345 : ℚ) from rfl, format_vn_num,
      parse_format_12345]
    norm_num

/-- C8 (amended): `items` and `type` always pass through the engine unchanged,
and — provided the parsed quantity and buy price carry at most two fractional
digits — the numeric values survive the textual normalization exactly, whether
or not pricing succeeded. -/
theorem C8_frame (f s : List Char → Option ℚ) (r : Row) (nq nb : ℕ)
    (hq : parse_number r.quantity = (nq : ℚ) / 100)
    (hb : parse_number r.buy_price = (nb : ℚ) / 100) :
    (processRow f s r).1.items = r.items
    ∧ (processRow f s r).1.type = r.type
    ∧ parse_number ((processRow f s r).1.quantity) = parse_number r.quantity
    ∧ parse_number ((processRow f s r).1.buy_price) = parse_number r.buy_price := by
  refine ⟨processRow_items f s r, processRow_type f s r, ?_, ?_⟩
  · rw [processRow_quantity]
    exact reparse_format_vn _ nq hq
  · rw [processRow_buy_price]
    exact reparse_format_vn _ nb hb

theorem C8_frame_witness :
    parse_number ((processRow (fun _ => Option.none) (fun _ => Option.none)
      { items := "ZZZ".toList, type := "stock".toList, quantity := PyVal.num (1.25 : ℚ),
        buy_price := PyVal.num (2 : ℚ), current_price := PyVal.str [],
        profit_loss := PyVal.str [], total_buy := PyVal.str [],
        total_current := PyVal.str [] }).1.quantity)
      = parse_number (PyVal.num (1.25 : ℚ)) :=
  (C8_frame (fun _ => Option.none) (fun _ => Option.none)
    { items := "ZZZ".toList, type := "stock".toList, quantity := PyVal.num (1.25 : ℚ),
      buy_price := PyVal.num (2 : ℚ), current_price := PyVal.str [],
      profit_loss := PyVal.str [], total_buy := PyVal.str [],
      total_current := PyVal.str [] } 125 200 (by norm_num [parse_number])
    (by norm_num [parse_number])).2.2.1

theorem recalcLoop_replay (f s : List Char → Option ℚ) : ∀ (l : List Row),
    (∀ r ∈ l, (∃ k : ℕ, parse_number r.quantity = (k : ℚ) / 100)
      ∧ (∃ k : ℕ, parse_number r.buy_price = (k : ℚ) / 100)) →
    (recalcLoop f s (l.map (fun r => (processRow f s r).1))).2 = (recalcLoop f s l).2 := by
  intro l
  induction l with
  | nil => intro _; rfl
  | cons r t ih =>
    intro h
    have hr := h r (by simp)
    have ht := ih (fun x hx => h x (by simp [hx]))
    have hrep := processRow_replay f s r hr.1 hr.2
    rw [List.map_cons, Prod.ext_iff]
    constructor
    · rw [recalcLoop_snd1_cons, recalcLoop_snd1_cons,
        show (processRow f s (processRow f s r).1).2.1 = (processRow f s r).2.1 from
          congrArg Prod.fst hrep,
        show (recalcLoop f s (t.map (fun x => (processRow f s x).1))).2.1
            = (recalcLoop f s t).2.1 from congrArg Prod.fst ht]
    · rw [recalcLoop_snd2_cons, recalcLoop_snd2_cons,
        show (processRow f s (processRow f s r).1).2.2 = (processRow f s r).2.2 from
          congrArg Prod.snd hrep,
        show (recalcLoop f s (t.map (fun x => (processRow f s x).1))).2.2
            = (recalcLoop f s t).2.2 from congrArg Prod.snd ht]

/-- C4 counterexample: with a quantity of 1.2345 units priced at 1, the first
pass totals 1.2345 while re-feeding the engine's own output (its TOTAL row is
discarded by the pass itself) totals only 1.23 — the claim fails for inputs
with more than two fractional digits. -/
theorem C4_totals_counterexample :
    recalcTotals (fun _ => some 1) (fun _ => Option.none)
        (recalc_prices_and_profit (fun _ => some 1) (fun _ => Option.none) [rowQ])
      ≠ recalcTotals (fun _ => some 1) (fun _ => Option.none) [rowQ] := by
  have hcontrib := processRow_contrib_some (fun _ => some 1) (fun _ => Option.none)
    rowQ 1 rowQ_price
  have hrecalc : recalc_prices_and_profit (fun _ => some 1) (fun _ => Option.none) [rowQ]
      = (processRow (fun _ => some 1) (fun _ => Option.none) rowQ).1
        :: [totalRow ((processRow (fun _ => some 1) (fun _ => Option.none) rowQ).2.1 + 0)
              ((processRow (fun _ => some 1) (fun _ => Option.none) rowQ).2.2 + 0)] := rfl
  have hfilter : (recalc_prices_and_profit (fun _ => some 1) (fun _ => Option.none)
        [rowQ]).filter (fun r => r.items ≠ "TOTAL".toList)
      = [(processRow (fun _ => some 1) (fun _ => Option.none) rowQ).1] := by
    rw [hrecalc, List.filter_cons_of_pos (by simp [processRow_items]; decide),
      List.filter_cons_of_neg (by simp [totalRow])]
    rfl
  have hpf2 : priceFor (fun _ => some 1) (fun _ => Option.none)
      (processRow (fun _ => some 1) (fun _ => Option.none) rowQ).1 = some 1 := by
    rw [priceFor_congr _ _ rowQ _ (processRow_items _ _ _) (processRow_type _ _ _), rowQ_price]
  have hcontrib2 := processRow_contrib_some (fun _ => some 1) (fun _ => Option.none)
    (processRow (fun _ => some 1) (fun _ => Option.none) rowQ).1 1 hpf2
  have hq2 : parse_number ((processRow (fun _ => some 1) (fun _ => Option.none)
      rowQ).1.quantity) = (123 : ℚ) / 100 := by
    rw [processRow_quantity]
    rw [show parse_number rowQ.quantity = (1.2345 : ℚ) from rfl, format_vn_num,
      parse_format_12345]
  have hb2 : parse_number ((processRow (fun _ => some 1) (fun _ => Option.none)
      rowQ).1.buy_price) = 0 := by
    rw [processRow_buy_price]
    have := reparse_format_vn rowQ.buy_price 0 (by norm_num [rowQ, parse_number])
    rw [this]
    rfl
  intro heq
  -- compare the total_current components of the two passes
  have hsnd := congrArg Prod.snd heq
  unfold recalcTotals at hsnd
  rw [hfilter] at hsnd
  rw [show ([rowQ].filter (fun r => r.items ≠ "TOTAL".toList)) = [rowQ] from rfl] at hsnd
  rw [show (recalcLoop (fun _ => some 1) (fun _ => Option.none)
        [(processRow (fun _ => some 1) (fun _ => Option.none) rowQ).1]).2
      = ((processRow (fun _ => some 1) (fun _ => Option.none)
            (processRow (fun _ => some 1) (fun _ => Option.none) rowQ).1).2.1 + 0,
          (processRow (fun _ => some 1) (fun _ => Option.none)
            (processRow (fun _ => some 1) (fun _ => Option.none) rowQ).1).2.2 + 0)
      from rfl] at hsnd
  rw [show (recalcLoop (fun _ => some 1) (fun _ => Option.none) [rowQ]).2
      = ((processRow (fun _ => some 1) (fun _ => Option.none) rowQ).2.1 + 0,
          (processRow (fun _ => some 1) (fun _ => Option.none) rowQ).2.2 + 0)
      from rfl] at hsnd
  simp only at hsnd
  rw [show (processRow (fun _ => some 1) (fun _ => Option.none)
        (processRow (fun _ => some 1) (fun _ => Option.none) rowQ).1).2.2
      = 1 * parse_number ((processRow (fun _ => some 1) (fun _ => Option.none)
          rowQ).1.quantity) from congrArg Prod.snd hcontrib2] at hsnd
  rw [show (processRow (fun _ => some 1) (fun _ => Option.none) rowQ).2.2
      = 1 * parse_number rowQ.quantity from congrArg Prod.snd hcontrib] at hsnd
  rw [hq2, show parse_number rowQ.quantity = (1.2345 : ℚ) from rfl] at hsnd
  norm_num at hsnd

/-- C4 (amended): re-feeding reconcile's own output (the TOTAL row is
discarded by the pass, whether stripped beforehand or not) reproduces the
first pass's totals exactly, provided every input holding's parsed quantity
and buy price carry at most two fractional digits — as is in particular true
of any list that is itself engine output. -/
theorem C4_totals_replay (f s : List Char → Option ℚ) (df : List Row)
    (h : ∀ r ∈ df, (∃ k : ℕ, parse_number r.quantity = (k : ℚ) / 100)
      ∧ (∃ k : ℕ, parse_number r.buy_price = (k : ℚ) / 100)) :
    recalcTotals f s (recalc_prices_and_profit f s df) = recalcTotals f s df := by
  have hbody : ∀ r ∈ df.filter (fun x => x.items ≠ "TOTAL".toList),
      (∃ k : ℕ, parse_number r.quantity = (k : ℚ) / 100)
      ∧ (∃ k : ℕ, parse_number r.buy_price = (k : ℚ) / 100) :=
    fun r hr => h r (List.mem_of_mem_filter hr)
  have hrecalc : recalc_prices_and_profit f s df
      = ((df.filter (fun x => x.items ≠ "TOTAL".toList)).map
          (fun r => (processRow f s r).1))
        ++ [totalRow (recalcLoop f s (df.filter (fun x => x.items ≠ "TOTAL".toList))).2.1
              (recalcLoop f s (df.filter (fun x => x.items ≠ "TOTAL".toList))).2.2] := by
    unfold recalc_prices_and_profit
    show (recalcLoop f s (df.filter (fun x => x.items ≠ "TOTAL".toList))).1 ++ _ = _
    rw [recalcLoop_fst]
  have hfilter2 : (recalc_prices_and_profit f s df).filter
        (fun x => x.items ≠ "TOTAL".toList)
      = (df.filter (fun x => x.items ≠ "TOTAL".toList)).map
          (fun r => (processRow f s r).1) := by
    rw [hrecalc, List.filter_append]
    rw [show (List.filter (fun x => x.items ≠ "TOTAL".toList)
          [totalRow (recalcLoop f s (df.filter (fun x => x.items ≠ "TOTAL".toList))).2.1
            (recalcLoop f s (df.filter (fun x => x.items ≠ "TOTAL".toList))).2.2]) = []
        from by simp [totalRow]]
    rw [List.append_nil]
    apply List.filter_eq_self.mpr
    intro a ha
    rcases List.mem_map.mp ha with ⟨x, hx, hxa⟩
    subst hxa
    simp only [decide_eq_true_eq]
    rw [processRow_items]
    have := List.of_mem_filter hx
    simpa using this
  unfold recalcTotals
  rw [hfilter2, recalcLoop_replay f s _ hbody]

theorem C4_totals_replay_witness :
    recalcTotals (fun _ => some 2) (fun _ => Option.none)
        (recalc_prices_and_profit (fun _ => some 2) (fun _ => Option.none)
          [{ items := "AAA".toList, type := "fund".toList,
             quantity := PyVal.num (1.25 : ℚ), buy_price := PyVal.num (1 : ℚ),
             current_price := PyVal.str [], profit_loss := PyVal.str [],
             total_buy := PyVal.str [], total_current := PyVal.str [] }])
      = recalcTotals (fun _ => some 2) (fun _ => Option.none)
          [{ items := "AAA".toList, type := "fund".toList,
             quantity := PyVal.num (1.25 : ℚ), buy_price := PyVal.num (1 : ℚ),
             current_price := PyVal.str [], profit_loss := PyVal.str [],
             total_buy := PyVal.str [], total_current := PyVal.str [] }] :=
  C4_totals_replay (fun _ => some 2) (fun _ => Option.none)
    [{ items := "AAA".toList, type := "fund".toList,
       quantity := PyVal.num (1.25 : ℚ), buy_price := PyVal.num (1 : ℚ),
       current_price := PyVal.str [], profit_loss := PyVal.str [],
       total_buy := PyVal.str [], total_current := PyVal.str [] }]
    (by
      intro r hr
      simp only [List.mem_singleton] at hr
      subst hr
      exact ⟨⟨125, by norm_num [parse_number]⟩, ⟨100, by norm_num [parse_number]⟩⟩)

end FundsApp
